import Mathlib

/-!
Verification development for the two scripts of this repository:
`src/failed_attempts/llm_client.py` (model-response interpretation and model
selection) and `src/failed_attempts/upload_to_gcs.py` (report upload with a
staged credential file).

The Python code is shallowly embedded: strings become `List Char` or `String`,
parsed JSON documents become the inductive `Json` tree (mirroring what
`json.loads` produces: Python `int`, `float` — including the non-strict
`Infinity` / `-Infinity` / `NaN` constants that `json.loads` accepts by
default — `str`, `bool`, `None`, `list`, `dict`), fallible code returns
`Except`, and the distinct Python exception classes that can escape
`_parse_mappings_json` are the constructors of `PyErr`.  Finite `float`
values are carried exactly as a decimal mantissa and a power-of-ten exponent
(every JSON numeric literal denotes such a finite decimal); IEEE-754
rounding of the mantissa is not modelled.  Whitespace classes are modelled
over ASCII.
-/

/-- Whitespace as used by Python `str.strip` and the regex class for spaces,
restricted to ASCII: space, tab, newline, carriage return, form feed,
vertical tab. -/
def isPySpace (c : Char) : Bool :=
  c = ' ' || c = '\t' || c = '\n' || c = '\r' || c = Char.ofNat 12 || c = Char.ofNat 11

/-- Whitespace accepted between tokens by the JSON grammar of `json.loads`:
space, tab, newline, carriage return. -/
def isJsonWs (c : Char) : Bool :=
  c = ' ' || c = '\t' || c = '\n' || c = '\r'

/-- The backtick character (code point 96), kept as a named constant. -/
def btick : Char := Char.ofNat 96

/-- Three consecutive backticks: the fence delimiter of the regex in
`_parse_mappings_json`. -/
def ticks3 : List Char := [btick, btick, btick]

/-- The characters of the optional language tag `json` in the fence regex. -/
def jsonTag : List Char := ['j', 's', 'o', 'n']

/-- Embedding of Python `text.strip()`: drop the leading and trailing run of
whitespace characters. -/
def stripChars (cs : List Char) : List Char :=
  ((cs.dropWhile isPySpace).reverse.dropWhile isPySpace).reverse

/-- After a closing brace candidate, the regex tail requires a run of
whitespace followed immediately by three backticks.  This decides whether the
remaining characters admit that tail. -/
def fenceAfter (l : List Char) : Bool :=
  match l.dropWhile isPySpace with
  | c1 :: c2 :: c3 :: _ => c1 == btick && c2 == btick && c3 == btick
  | _ => false

/-- Scan of the span following the opening brace: record the index of every
closing brace whose tail admits the closing fence, keeping the last one
(greedy `.*` takes the rightmost viable closing brace). -/
def findCloseGo : List Char → Nat → Option Nat → Option Nat
  | [], _, best => best
  | c :: rest, i, best =>
    findCloseGo rest (i + 1) (if c = '}' && fenceAfter rest then some i else best)

/-- Index of the rightmost closing brace usable by the greedy regex, if any. -/
def findLastClose (r : List Char) : Option Nat :=
  findCloseGo r 0 none

/-- Attempt of the fence regex anchored at the current position: three
backticks, optional `json` tag, a whitespace run, an opening brace, then the
greedy captured span up to the rightmost closing brace whose tail is a run of
whitespace followed by three backticks.  Returns the captured group. -/
def tryFenceAt (cs : List Char) : Option (List Char) :=
  match cs with
  | c1 :: c2 :: c3 :: rest =>
    if c1 = btick && c2 = btick && c3 = btick then
      let rest1 := if rest.take 4 = jsonTag then rest.drop 4 else rest
      match rest1.dropWhile isPySpace with
      | '{' :: r =>
        match findLastClose r with
        | some k => some ('{' :: r.take (k + 1))
        | none => none
      | _ => none
    else none
  | _ => none

/-- Embedding of `re.search` for the pattern used by `_parse_mappings_json`:
the match with the leftmost viable starting position wins, and within one
starting position the greedy alternatives of `tryFenceAt` apply. -/
def searchFence : List Char → Option (List Char)
  | [] => none
  | c :: cs =>
    match tryFenceAt (c :: cs) with
    | some g => some g
    | none => searchFence cs

/-- Fence handling of `_parse_mappings_json`: if the regex matches, the text
is replaced by the captured group, otherwise it is left unchanged. -/
def extractFenced (cs : List Char) : List Char :=
  (searchFence cs).getD cs

/-- Values produced by `json.loads`: `null`, booleans, Python `int` (numeric
literal without fraction or exponent), finite Python `float` carried
exactly as `jfloat m e` denoting `m * 10 ^ e`, the infinite floats from the non-strict constants `Infinity`
and `-Infinity`, the float `NaN` from the constant `NaN`, strings, arrays and
objects.  Objects keep the member list as parsed; lookup takes the last
occurrence of a key, as the underlying Python `dict` does. -/
inductive Json where
  | null : Json
  | bool : Bool → Json
  | jint : Int → Json
  | jfloat : Int → Int → Json
  | jinf : Bool → Json
  | jnan : Json
  | str : String → Json
  | arr : List Json → Json
  | obj : List (String × Json) → Json

/-- Lookup in a parsed object member list with the last occurrence of a key
winning, matching the Python `dict` built by `json.loads` from duplicate
keys. -/
def lookupLast (fields : List (String × Json)) (key : String) : Option Json :=
  fields.foldl (fun best p => if p.1 = key then some p.2 else best) none

/-- Embedding of Python `data.get(key)` on a parsed document known to be an
object; on any other document shape the call site raises instead (handled at
the call site). -/
def objGet (data : Json) (key : String) : Option Json :=
  match data with
  | Json.obj fields => lookupLast fields key
  | _ => none

/-- Python truthiness of a value produced by `json.loads`: `None`, `False`,
numeric zero, the empty string, the empty list and the empty dict are falsy;
everything else (including `NaN` and the infinities) is truthy. -/
def truthy : Json → Bool
  | Json.null => false
  | Json.bool b => b
  | Json.jint n => n != 0
  | Json.jfloat m _ => m != 0
  | Json.jinf _ => true
  | Json.jnan => true
  | Json.str s => !s.isEmpty
  | Json.arr xs => !xs.isEmpty
  | Json.obj fs => !fs.isEmpty

/-- Truthiness of `data.get(key)`: an absent key yields Python `None`, which
is falsy. -/
def truthyOpt : Option Json → Bool
  | none => false
  | some j => truthy j

/-- Embedding of `data.get("mappings") or data.get("mapping") or []`: the
first truthy value in the chain, with the empty list as final default. -/
def selectMappings (a b : Option Json) : Json :=
  if truthyOpt a then a.getD Json.null
  else if truthyOpt b then b.getD Json.null
  else Json.arr []

/-- Decides `isinstance(x, list)` on a parsed value. -/
def isArr : Json → Bool
  | Json.arr _ => true
  | _ => false

/-- Decides an ASCII decimal digit. -/
def isDigit (c : Char) : Bool := '0' ≤ c && c ≤ '9'

/-- Numeric value of an ASCII digit. -/
def digitVal (c : Char) : Nat := c.toNat - 48

/-- Value of a hexadecimal digit, if the character is one. -/
def hexVal (c : Char) : Option Nat :=
  if '0' ≤ c && c ≤ '9' then some (c.toNat - 48)
  else if 'a' ≤ c && c ≤ 'f' then some (c.toNat - 87)
  else if 'A' ≤ c && c ≤ 'F' then some (c.toNat - 55)
  else none

/-- Body of a JSON string literal, positioned after the opening quote.
Returns the decoded characters and the input after the closing quote.
Escapes follow the JSON grammar; a `\u` escape becomes the character of the
given code point (`Char.ofNat`; surrogate-pair recombination is not
modelled).  Unescaped control characters are rejected, as `json.loads` does
in its default strict mode. -/
def jstring : List Char → Option (List Char × List Char)
  | [] => none
  | '"' :: rest => some ([], rest)
  | '\\' :: 'u' :: h1 :: h2 :: h3 :: h4 :: rest =>
    match hexVal h1, hexVal h2, hexVal h3, hexVal h4 with
    | some a, some b, some c, some d =>
      (jstring rest).map (fun p => (Char.ofNat (((a * 16 + b) * 16 + c) * 16 + d) :: p.1, p.2))
    | _, _, _, _ => none
  | '\\' :: e :: rest =>
    match e with
    | '"' => (jstring rest).map (fun p => ('"' :: p.1, p.2))
    | '\\' => (jstring rest).map (fun p => ('\\' :: p.1, p.2))
    | '/' => (jstring rest).map (fun p => ('/' :: p.1, p.2))
    | 'b' => (jstring rest).map (fun p => (Char.ofNat 8 :: p.1, p.2))
    | 'f' => (jstring rest).map (fun p => (Char.ofNat 12 :: p.1, p.2))
    | 'n' => (jstring rest).map (fun p => ('\n' :: p.1, p.2))
    | 'r' => (jstring rest).map (fun p => ('\r' :: p.1, p.2))
    | 't' => (jstring rest).map (fun p => ('\t' :: p.1, p.2))
    | _ => none
  | c :: rest =>
    if c.toNat < 32 then none
    else (jstring rest).map (fun p => (c :: p.1, p.2))

/-- Natural number denoted by a digit run. -/
def digitsToNat (ds : List Char) : Nat :=
  ds.foldl (fun a c => a * 10 + digitVal c) 0

/-- JSON number literal at the head of the input: optional minus, an integer
part without leading zeros, an optional fraction, an optional exponent.  A
literal with neither fraction nor exponent becomes a Python `int`; any other
becomes a `float`, carried as the exact rational `mantissa * 10 ^ (exponent -
fraction length)`. -/
def jparseNum (cs : List Char) : Option (Json × List Char) :=
  let sgn : Bool × List Char := match cs with
    | '-' :: r => (true, r)
    | _ => (false, cs)
  let neg := sgn.1
  let intSpan := sgn.2.span isDigit
  let intDigits := intSpan.1
  match intDigits with
  | [] => none
  | d0 :: drest =>
    if d0 = '0' && !drest.isEmpty then none
    else
      let fracSpan : Option (List Char) × List Char := match intSpan.2 with
        | '.' :: r =>
          let s := r.span isDigit
          (if s.1.isEmpty then none else some s.1, s.2)
        | r => (some [], r)
      match fracSpan.1 with
      | none => none
      | some fracDigits =>
        let afterFrac := fracSpan.2
        let expSpan : Option (Option Int) × List Char := match afterFrac with
          | 'e' :: r | 'E' :: r =>
            let se : Bool × List Char := match r with
              | '-' :: r2 => (true, r2)
              | '+' :: r2 => (false, r2)
              | _ => (false, r)
            let s := se.2.span isDigit
            (if s.1.isEmpty then none
             else some (some (if se.1 then -(digitsToNat s.1 : Int) else (digitsToNat s.1 : Int))),
             s.2)
          | r => (some none, r)
        match expSpan.1 with
        | none => none
        | some expPart =>
          let rest := expSpan.2
          let wasFrac := !(match intSpan.2 with | '.' :: _ => false | _ => true)
          let hasExp := !(expPart.isNone)
          if !wasFrac && !hasExp then
            let v : Int := (digitsToNat intDigits : Int)
            some (Json.jint (if neg then -v else v), rest)
          else
            let mant : Int := (digitsToNat (intDigits ++ fracDigits) : Int)
            let e : Int := (expPart.getD 0) - (fracDigits.length : Int)
            some (Json.jfloat (if neg then -mant else mant) e, rest)

mutual

/-- Recursive-descent embedding of the value grammar of `json.loads`,
including its documented non-strict constants `NaN`, `Infinity` and
`-Infinity`.  The fuel argument dominates the recursion depth; the entry
point supplies more fuel than the input length, which suffices because every
recursive call consumes at least one character first. -/
def jparseVal : Nat → List Char → Option (Json × List Char)
  | 0, _ => none
  | Nat.succ fuel, cs =>
    let cs1 := cs.dropWhile isJsonWs
    match cs1 with
    | 'n' :: 'u' :: 'l' :: 'l' :: rest => some (Json.null, rest)
    | 't' :: 'r' :: 'u' :: 'e' :: rest => some (Json.bool true, rest)
    | 'f' :: 'a' :: 'l' :: 's' :: 'e' :: rest => some (Json.bool false, rest)
    | 'N' :: 'a' :: 'N' :: rest => some (Json.jnan, rest)
    | 'I' :: 'n' :: 'f' :: 'i' :: 'n' :: 'i' :: 't' :: 'y' :: rest => some (Json.jinf true, rest)
    | '-' :: 'I' :: 'n' :: 'f' :: 'i' :: 'n' :: 'i' :: 't' :: 'y' :: rest =>
      some (Json.jinf false, rest)
    | '"' :: rest => (jstring rest).map (fun p => (Json.str (String.mk p.1), p.2))
    | '[' :: rest =>
      match rest.dropWhile isJsonWs with
      | ']' :: rest1 => some (Json.arr [], rest1)
      | _ => (jparseElems fuel rest []).map (fun p => (Json.arr p.1, p.2))
    | '{' :: rest =>
      match rest.dropWhile isJsonWs with
      | '}' :: rest1 => some (Json.obj [], rest1)
      | _ => (jparseMembers fuel rest []).map (fun p => (Json.obj p.1, p.2))
    | _ => jparseNum cs1

/-- Comma-separated array elements, expecting a value next, ended by a
closing bracket. -/
def jparseElems : Nat → List Char → List Json → Option (List Json × List Char)
  | 0, _, _ => none
  | Nat.succ fuel, cs, acc =>
    match jparseVal fuel cs with
    | none => none
    | some (v, rest) =>
      match rest.dropWhile isJsonWs with
      | ',' :: rest2 => jparseElems fuel rest2 (acc ++ [v])
      | ']' :: rest2 => some (acc ++ [v], rest2)
      | _ => none

/-- Comma-separated object members, expecting a quoted key next, ended by a
closing brace. -/
def jparseMembers : Nat → List Char → List (String × Json) →
    Option (List (String × Json) × List Char)
  | 0, _, _ => none
  | Nat.succ fuel, cs, acc =>
    match cs.dropWhile isJsonWs with
    | '"' :: rest =>
      match jstring rest with
      | none => none
      | some (key, rest1) =>
        match rest1.dropWhile isJsonWs with
        | ':' :: rest2 =>
          match jparseVal fuel rest2 with
          | none => none
          | some (v, rest3) =>
            match rest3.dropWhile isJsonWs with
            | ',' :: rest4 => jparseMembers fuel rest4 (acc ++ [(String.mk key, v)])
            | '}' :: rest4 => some (acc ++ [(String.mk key, v)], rest4)
            | _ => none
        | _ => none
    | _ => none

end

/-- Embedding of `json.loads`: parse one document and require that only
whitespace follows, otherwise the call raises `JSONDecodeError` (signalled
here by `none`). -/
def jsonLoads (cs : List Char) : Option Json :=
  match jparseVal (cs.length + 1) cs with
  | some (v, rest) => if rest.dropWhile isJsonWs = [] then some v else none
  | none => none

/-- Python exception classes that can escape `_parse_mappings_json`:
`json.JSONDecodeError` from `json.loads`, `AttributeError` from calling
`.get` on a non-dict document, the `ValueError` raised with the message
`Expected` `mappings` `array`, and `OverflowError` from `int()` applied to an
infinite float, which the `except (TypeError, ValueError)` clause does not
catch. -/
inductive PyErr where
  | jsonDecodeError : PyErr
  | attributeError : PyErr
  | expectedMappingsArray : PyErr
  | overflowError : PyErr
deriving DecidableEq

/-- Exception classes that `int(x)` can raise inside the per-element loop:
`TypeError` (wrong argument type), `ValueError` (unparsable string or `NaN`),
`OverflowError` (infinite float). -/
inductive CoErr where
  | tyErr : CoErr
  | valErr : CoErr
  | ovfErr : CoErr
deriving DecidableEq

/-- Truncation toward zero of a rational, the rounding Python `int(float)`
performs. -/
def ratTrunc (q : Rat) : Int :=
  if 0 ≤ q then Rat.floor q else -(Rat.floor (-q))

/-- Truncation toward zero of the decimal `m * 10 ^ e`, computed on the exact
representation; `truncPow10_eq_ratTrunc` below identifies it with the
truncation of the denoted rational. -/
def truncPow10 (m e : Int) : Int :=
  if 0 ≤ e then m * ((10 : Int) ^ e.toNat)
  else
    let d : Nat := 10 ^ (-e).toNat
    if 0 ≤ m then (m.toNat / d : Nat) else -((m.natAbs / d : Nat) : Int)

/-- Digit run of a Python integer literal after the first digit, allowing
single underscores between digits as Python `int(str)` does. -/
def intDigitsGo : List Char → Nat → Option Nat
  | [], acc => some acc
  | '_' :: c :: rest, acc =>
    if isDigit c then intDigitsGo rest (acc * 10 + digitVal c) else none
  | c :: rest, acc =>
    if isDigit c then intDigitsGo rest (acc * 10 + digitVal c) else none

/-- Digit run of a Python integer literal: at least one digit, underscores
only between digits. -/
def pyIntDigits : List Char → Option Nat
  | [] => none
  | c :: rest => if isDigit c then intDigitsGo rest (digitVal c) else none

/-- Embedding of Python `int(s)` for a string: surrounding whitespace is
stripped, an optional sign precedes a digit run; anything else raises
`ValueError` (signalled by `none`). -/
def pyIntOfStr (s : String) : Option Int :=
  match stripChars s.toList with
  | '-' :: ds => (pyIntDigits ds).map (fun n => -(n : Int))
  | '+' :: ds => (pyIntDigits ds).map (fun n => (n : Int))
  | ds => (pyIntDigits ds).map (fun n => (n : Int))

/-- Embedding of Python `int(x)` on a value produced by `json.loads`: the
identity on `int`, truncation toward zero on a finite `float`,
`OverflowError` on an infinite float, `ValueError` on `NaN`, `0` or `1` on a
boolean, literal parsing on a string, `TypeError` on `None`, lists and
dicts. -/
def pyInt : Json → Except CoErr Int
  | Json.jint n => Except.ok n
  | Json.jfloat m e => Except.ok (truncPow10 m e)
  | Json.jinf _ => Except.error CoErr.ovfErr
  | Json.jnan => Except.error CoErr.valErr
  | Json.bool b => Except.ok (if b then 1 else 0)
  | Json.str s =>
    match pyIntOfStr s with
    | some n => Except.ok n
    | none => Except.error CoErr.valErr
  | Json.null => Except.error CoErr.tyErr
  | Json.arr _ => Except.error CoErr.tyErr
  | Json.obj _ => Except.error CoErr.tyErr

/-- The clamp `max(1, min(10, aff))` applied to every stored score. -/
def clampScore (n : Int) : Int := max 1 (min 10 n)

/-- The score computation of the per-element loop: `int(aff)` inside `try`,
with `TypeError` and `ValueError` replaced by the default `5`, followed by
the clamp; an `OverflowError` propagates out of the whole call. -/
def scoreOf (aff : Json) : Except PyErr Int :=
  match pyInt aff with
  | Except.ok n => Except.ok (clampScore n)
  | Except.error CoErr.tyErr => Except.ok (clampScore 5)
  | Except.error CoErr.valErr => Except.ok (clampScore 5)
  | Except.error CoErr.ovfErr => Except.error PyErr.overflowError

/-- The apostrophe character, kept as a named constant for string rendering. -/
def squo : String := String.singleton (Char.ofNat 39)

/-- Left-pads a digit run with zeros up to a target length. -/
def padZeros (s : List Char) (n : Nat) : List Char :=
  List.replicate (n - s.length) '0' ++ s

/-- Drops trailing decimal zeros of a mantissa while fractional places
remain, so that the rendering of `7.90` is `7.9`. -/
def stripTenGo : Nat → Nat → Nat → Nat × Nat
  | 0, n, k => (n, k)
  | Nat.succ fuel, n, k =>
    if k = 0 then (n, k)
    else if n % 10 = 0 && n ≠ 0 then stripTenGo fuel (n / 10) (k - 1)
    else (n, k)

/-- Decimal rendering of the finite float `m * 10 ^ e`, approximating the
CPython `repr` of a float for finite decimals (no scientific notation).  No
claim below depends on this rendering for non-integral values. -/
def floatRepr (m e : Int) : String :=
  let negS := if m < 0 then "-" else ""
  let n : Nat := m.natAbs
  if n = 0 then "0.0"
  else if 0 ≤ e then
    negS ++ toString (n * 10 ^ e.toNat) ++ ".0"
  else
    let p := stripTenGo (-e).toNat n (-e).toNat
    if p.2 = 0 then negS ++ toString p.1 ++ ".0"
    else
      let ds := padZeros (toString p.1).toList (p.2 + 1)
      negS ++ String.mk (ds.take (ds.length - p.2)) ++ "." ++
        String.mk (ds.drop (ds.length - p.2))

/-- Fuelled Python `repr` of a parsed value, used by `str()` on non-string
values: `None`, `True`, `False`, decimal integers, decimal floats, quoted
strings (quote-choice and escaping of exotic characters are not modelled),
bracketed lists and braced dicts. -/
def pyReprFuel : Nat → Json → String
  | 0, _ => ""
  | Nat.succ fuel, j =>
    match j with
    | Json.null => "None"
    | Json.bool true => "True"
    | Json.bool false => "False"
    | Json.jint n => toString n
    | Json.jfloat m e => floatRepr m e
    | Json.jinf b => if b then "inf" else "-inf"
    | Json.jnan => "nan"
    | Json.str s => squo ++ s ++ squo
    | Json.arr xs =>
      "[" ++ String.intercalate ", " (xs.map (pyReprFuel fuel)) ++ "]"
    | Json.obj fs =>
      "\x7b" ++
        String.intercalate ", "
          (fs.map (fun p => squo ++ p.1 ++ squo ++ ": " ++ pyReprFuel fuel p.2)) ++
      "\x7d"

mutual

/-- Size of a parsed value, dominating the recursion depth of the renderer. -/
def jsize : Json → Nat
  | Json.arr xs => 1 + jsizeElems xs
  | Json.obj fs => 1 + jsizeFields fs
  | _ => 1

/-- Combined size of array elements. -/
def jsizeElems : List Json → Nat
  | [] => 0
  | x :: xs => jsize x + jsizeElems xs

/-- Combined size of object members. -/
def jsizeFields : List (String × Json) → Nat
  | [] => 0
  | p :: ps => jsize p.2 + jsizeFields ps

end

/-- Python `repr` of a parsed value, with fuel derived from the term size. -/
def pyRepr (j : Json) : String := pyReprFuel (jsize j) j

/-- Embedding of Python `str(x)` on a value produced by `json.loads`: a
string is returned unchanged, any other value is rendered. -/
def pyStr : Json → String
  | Json.str s => s
  | j => pyRepr j

/-- The two-field record stored per neighborhood:
`(sub_region, affluence_score)`. -/
structure Record where
  sub_region : String
  affluence_score : Int
deriving DecidableEq

/-- Embedding of `item.get("original_name")` followed by the
`name is not None` guard: both an absent key and a present `null` value give
Python `None`. -/
def itemNameOpt (item : Json) : Option Json :=
  match objGet item "original_name" with
  | some Json.null => none
  | o => o

/-- Embedding of `item.get("sub_region", "Unknown")`: the default applies
only when the key is absent. -/
def itemSub (item : Json) : Json :=
  (objGet item "sub_region").getD (Json.str "Unknown")

/-- Embedding of `item.get("affluence_score", 5)`: the default applies only
when the key is absent. -/
def itemAff (item : Json) : Json :=
  (objGet item "affluence_score").getD (Json.jint 5)

/-- Outcome of one iteration of the per-element loop: `none` for a skipped
element (not a dict, or `original_name` missing or `null`), otherwise the key
and record to store; an uncaught exception propagates. -/
def itemResult (item : Json) : Except PyErr (Option (String × Record)) :=
  match item with
  | Json.obj _ =>
    match itemNameOpt item with
    | none => Except.ok none
    | some nm =>
      match scoreOf (itemAff item) with
      | Except.ok sc =>
        Except.ok (some (pyStr nm, { sub_region := pyStr (itemSub item), affluence_score := sc }))
      | Except.error e => Except.error e
  | _ => Except.ok none

/-- Key under which an element would be stored, if it is stored at all. -/
def itemKey (item : Json) : Option String :=
  match item with
  | Json.obj _ => (itemNameOpt item).map pyStr
  | _ => none

/-- Assignment `result[key] = value` on a Python dict modelled as an
association list: an existing key keeps its position and takes the new value,
a new key is appended. -/
def dictInsert (m : List (String × Record)) (k : String) (v : Record) :
    List (String × Record) :=
  if m.any (fun p => p.1 == k) then
    m.map (fun p => if p.1 == k then (k, v) else p)
  else m ++ [(k, v)]

/-- One iteration of the loop body of `_parse_mappings_json` over the
accumulated result dict. -/
def processItem (m : List (String × Record)) (item : Json) :
    Except PyErr (List (String × Record)) :=
  match itemResult item with
  | Except.ok none => Except.ok m
  | Except.ok (some (k, v)) => Except.ok (dictInsert m k v)
  | Except.error e => Except.error e

/-- Embedding of `_parse_mappings_json` over the characters of the input
text: strip, fence extraction, `json.loads`, the truthiness-chained lookup of
`mappings` / `mapping`, the list check, and the per-element loop. -/
def parseMappingsChars (cs : List Char) : Except PyErr (List (String × Record)) :=
  match jsonLoads (extractFenced (stripChars cs)) with
  | none => Except.error PyErr.jsonDecodeError
  | some data =>
    match data with
    | Json.obj _ =>
      match selectMappings (objGet data "mappings") (objGet data "mapping") with
      | Json.arr items => items.foldlM processItem []
      | _ => Except.error PyErr.expectedMappingsArray
    | _ => Except.error PyErr.attributeError

/-- Embedding of `_parse_mappings_json` over a `String` input. -/
def _parse_mappings_json (s : String) : Except PyErr (List (String × Record)) :=
  parseMappingsChars s.toList

/-- Decides Python substring containment `needle in hay` on character
lists. -/
def containsSub (needle hay : List Char) : Bool :=
  hay.tails.any (fun t => needle.isPrefixOf t)

/-- Decides Python substring containment on strings. -/
def strIn (needle hay : String) : Bool :=
  containsSub needle.toList hay.toList

/-- The family part of a preferred model name: the characters before the
first colon, as computed by `preferred.split(":")[0]`. -/
def familyOf (preferred : String) : String :=
  String.mk (preferred.toList.takeWhile (fun c => c ≠ ':'))

/-- The loop condition of `_pick_model`: the entry contains the preferred
name, or — when the preferred name has a colon — the family part, evaluated
for each entry in turn. -/
def pickCond (preferred n : String) : Bool :=
  strIn preferred n ||
    (if preferred.toList.contains ':' then strIn (familyOf preferred) n else strIn preferred n)

/-- The `for` loop of `_pick_model`: first entry satisfying the condition. -/
def pickLoop (preferred : String) : List String → Option String
  | [] => none
  | n :: rest => if pickCond preferred n then some n else pickLoop preferred rest

/-- Embedding of `_pick_model` over the list of available model names (the
`ollama.list()` boundary call that produces the list is external; the list is
taken as a parameter): the loop over `names`, then `names[0] if names else
preferred`. -/
def _pick_model (names : List String) (preferred : String) : String :=
  match pickLoop preferred names with
  | some n => n
  | none =>
    match names with
    | [] => preferred
    | n :: _ => n

/-- Single-pass first-match selection written with `List.find?`, the shape
the amended selection rule takes. -/
def pickModelFirstMatch (names : List String) (preferred : String) : String :=
  match names.find? (fun n => pickCond preferred n) with
  | some n => n
  | none =>
    match names with
    | [] => preferred
    | n :: _ => n

/-- Truthiness of an environment variable read via `os.environ.get`: unset
(`None`) and the empty string are falsy. -/
def envTruthy : Option String → Bool
  | none => false
  | some s => !s.isEmpty

/-- The part of the filesystem the credential-staging claim observes: whether
`/tmp/gcp-sa-key.json` exists. -/
structure FsState where
  credFileExists : Bool
deriving DecidableEq

/-- Environment of one run of the upload script: the two environment
variables, whether the reports directory exists, and the regular files
directly inside it. -/
structure UploadEnv where
  gcsBucket : Option String
  credsJson : Option String
  reportsDirExists : Bool
  reportFiles : List String
deriving DecidableEq

/-- Embedding of `main` of `src/failed_attempts/upload_to_gcs.py`, returning
the final filesystem state and the number of uploaded files.  The guard
returns on a falsy bucket or credential variable; then the credential value
is written to `/tmp/gcp-sa-key.json`; a missing reports directory returns
early; otherwise every regular file is uploaded and the credential file is
unlinked.  The storage client, the uploads and the printed diagnostics are
external boundary effects; exception paths of those boundary calls are not
modelled (on them the script has no handler, so the staged file would also
remain). -/
def uploadMain (env : UploadEnv) (fs : FsState) : FsState × Nat :=
  if !(envTruthy env.gcsBucket) then (fs, 0)
  else if !(envTruthy env.credsJson) then (fs, 0)
  else
    let fs1 : FsState := { credFileExists := true }
    if !env.reportsDirExists then (fs1, 0)
    else ({ credFileExists := false }, env.reportFiles.length)

/-- Decides whether a call of the interpreter returned instead of raising. -/
def isOkE (r : Except PyErr (List (String × Record))) : Bool :=
  match r with
  | Except.ok _ => true
  | Except.error _ => false

/-- Decides whether a returned mapping holds a given key; an error holds no
keys. -/
def hasKey (r : Except PyErr (List (String × Record))) (k : String) : Bool :=
  match r with
  | Except.ok m => m.any (fun p => p.1 == k)
  | Except.error _ => false

/-- Decides whether the value at `affluence_score` is an infinite float, the
one element shape on which the loop raises. -/
def affIsInf (item : Json) : Bool :=
  match itemAff item with
  | Json.jinf _ => true
  | _ => false

/-! Helper lemmas about the per-element loop. -/

theorem clampScore_bounds (n : Int) : 1 ≤ clampScore n ∧ clampScore n ≤ 10 := by
  unfold clampScore
  exact ⟨le_max_left 1 (min 10 n), max_le (by norm_num) (min_le_left 10 n)⟩

theorem scoreOf_ok_bounds (a : Json) (sc : Int) (h : scoreOf a = Except.ok sc) :
    1 ≤ sc ∧ sc ≤ 10 := by
  unfold scoreOf at h
  cases hp : pyInt a with
  | ok n =>
    rw [hp] at h
    simp only [Except.ok.injEq] at h
    exact h ▸ clampScore_bounds n
  | error e =>
    rw [hp] at h
    cases e
    · simp only [Except.ok.injEq] at h
      exact h ▸ clampScore_bounds 5
    · simp only [Except.ok.injEq] at h
      exact h ▸ clampScore_bounds 5
    · exact Except.noConfusion h

theorem itemResult_ok_bounds (it : Json) (k : String) (r : Record)
    (h : itemResult it = Except.ok (some (k, r))) :
    1 ≤ r.affluence_score ∧ r.affluence_score ≤ 10 := by
  unfold itemResult at h
  cases it <;> simp only [Option.some.injEq, Except.ok.injEq] at h <;> try exact absurd h (by simp)
  case obj fs =>
    cases hn : itemNameOpt (Json.obj fs) with
    | none => rw [hn] at h; simp at h
    | some nm =>
      rw [hn] at h
      cases hs : scoreOf (itemAff (Json.obj fs)) with
      | ok sc =>
        rw [hs] at h
        simp only [Except.ok.injEq, Option.some.injEq, Prod.mk.injEq] at h
        have hr : r = { sub_region := pyStr (itemSub (Json.obj fs)), affluence_score := sc } :=
          h.2.symm
        rw [hr]
        exact scoreOf_ok_bounds _ _ hs
      | error e => rw [hs] at h; exact Except.noConfusion h

theorem dictInsert_mem (m : List (String × Record)) (k : String) (v : Record)
    (p : String × Record) (h : p ∈ dictInsert m k v) : p ∈ m ∨ p = (k, v) := by
  unfold dictInsert at h
  split at h
  · rcases List.mem_map.mp h with ⟨q, hq, hfq⟩
    by_cases hqk : q.1 == k
    · right; rw [if_pos hqk] at hfq; exact hfq.symm
    · left
      rw [if_neg hqk] at hfq
      exact hfq ▸ hq
  · rcases List.mem_append.mp h with h1 | h1
    · exact Or.inl h1
    · right; simpa using h1

theorem processItem_ok_bounds (acc acc2 : List (String × Record)) (it : Json)
    (hacc : ∀ p ∈ acc, 1 ≤ p.2.affluence_score ∧ p.2.affluence_score ≤ 10)
    (h : processItem acc it = Except.ok acc2) :
    ∀ p ∈ acc2, 1 ≤ p.2.affluence_score ∧ p.2.affluence_score ≤ 10 := by
  unfold processItem at h
  cases hi : itemResult it with
  | ok o =>
    rw [hi] at h
    cases o with
    | none =>
      simp only [Except.ok.injEq] at h
      exact h ▸ hacc
    | some kv =>
      simp only [Except.ok.injEq] at h
      intro p hp
      rcases dictInsert_mem acc kv.1 kv.2 p (h ▸ hp) with h1 | h1
      · exact hacc p h1
      · rw [h1]
        exact itemResult_ok_bounds it kv.1 kv.2 (by rw [hi])
  | error e => rw [hi] at h; exact Except.noConfusion h

theorem foldlM_ok_bounds (items : List Json) :
    ∀ acc m, (∀ p ∈ acc, 1 ≤ p.2.affluence_score ∧ p.2.affluence_score ≤ 10) →
    List.foldlM processItem acc items = Except.ok m →
    ∀ p ∈ m, 1 ≤ p.2.affluence_score ∧ p.2.affluence_score ≤ 10 := by
  induction items with
  | nil =>
    intro acc m hacc h
    simp only [List.foldlM_nil] at h
    have hm : acc = m := by simpa [pure, Except.pure] using h
    exact hm ▸ hacc
  | cons it rest ih =>
    intro acc m hacc h
    rw [List.foldlM_cons] at h
    cases hi : processItem acc it with
    | error e =>
      rw [hi] at h
      exact Except.noConfusion h
    | ok acc2 =>
      rw [hi] at h
      exact ih acc2 m (processItem_ok_bounds acc acc2 it hacc hi) h

theorem parse_ok_shape (cs : List Char) (m : List (String × Record))
    (h : parseMappingsChars cs = Except.ok m) :
    ∃ fs items, jsonLoads (extractFenced (stripChars cs)) = some (Json.obj fs) ∧
      selectMappings (objGet (Json.obj fs) "mappings") (objGet (Json.obj fs) "mapping") =
        Json.arr items ∧
      List.foldlM processItem [] items = Except.ok m := by
  unfold parseMappingsChars at h
  split at h
  · exact Except.noConfusion h
  · rename_i data hjs
    split at h <;> try exact Except.noConfusion h
    rename_i fs
    split at h <;> try exact Except.noConfusion h
    rename_i items hsel
    exact ⟨fs, items, hjs, hsel, h⟩

/-- C1: for every input text on which the Response Interpreter
(`_parse_mappings_json`) returns successfully, every record in the returned
mapping has an integer `affluence_score` with `1 <= affluence_score <= 10`. -/
theorem C1_score_range (s : String) (m : List (String × Record))
    (h : _parse_mappings_json s = Except.ok m) :
    ∀ k r, (k, r) ∈ m → 1 ≤ r.affluence_score ∧ r.affluence_score ≤ 10 := by
  obtain ⟨fs, items, hj, hsel, hfold⟩ := parse_ok_shape s.toList m h
  intro k r hkr
  exact foldlM_ok_bounds items [] m (by simp) hfold (k, r) hkr

/-- Witness for C1 at a concrete response text whose score `15` is stored
clamped to `10`, inside the proved range. -/
theorem C1_witness :
    1 ≤ (Record.mk "Unknown" 10).affluence_score ∧
      (Record.mk "Unknown" 10).affluence_score ≤ 10 :=
  C1_score_range
    "\x7b\x22mappings\x22:[\x7b\x22original_name\x22:\x22A\x22,\x22affluence_score\x22:15\x7d]\x7d"
    [("A", Record.mk "Unknown" 10)] rfl "A" (Record.mk "Unknown" 10) (by simp)

/-- C5: an element with a non-null name whose `affluence_score` coerces to an
integer below `1` stores the bound `1`, and one above `10` stores the bound
`10`; out-of-range scores are clamped to the nearest bound, never
rejected. -/
theorem C5_clamped (fs : List (String × Json)) (nm : Json) (k : Int)
    (hn : itemNameOpt (Json.obj fs) = some nm)
    (hk : pyInt (itemAff (Json.obj fs)) = Except.ok k) :
    (k < 1 → itemResult (Json.obj fs) = Except.ok (some (pyStr nm,
      { sub_region := pyStr (itemSub (Json.obj fs)), affluence_score := 1 }))) ∧
    (10 < k → itemResult (Json.obj fs) = Except.ok (some (pyStr nm,
      { sub_region := pyStr (itemSub (Json.obj fs)), affluence_score := 10 }))) := by
  have hs : scoreOf (itemAff (Json.obj fs)) = Except.ok (clampScore k) := by
    unfold scoreOf
    rw [hk]
  constructor
  · intro hlt
    have h1 : clampScore k = 1 := by
      unfold clampScore
      rw [min_eq_right (by omega : k ≤ 10), max_eq_left (by omega : k ≤ 1)]
    simp only [itemResult, hn, hs, h1]
  · intro hgt
    have h10 : clampScore k = 10 := by
      unfold clampScore
      rw [min_eq_left (by omega : (10:Int) ≤ k)]
      exact max_eq_right (by norm_num)
    simp only [itemResult, hn, hs, h10]

/-- Witness for C5 at a concrete element with score `-3`, stored as `1`. -/
theorem C5_witness :
    itemResult (Json.obj [("original_name", Json.str "A"), ("affluence_score", Json.jint (-3))]) =
      Except.ok (some ("A", { sub_region := "Unknown", affluence_score := 1 })) :=
  (C5_clamped [("original_name", Json.str "A"), ("affluence_score", Json.jint (-3))]
    (Json.str "A") (-3) rfl rfl).1 (by norm_num)

/-- Relation between `Rat.floor` and the floor of the `FloorRing` instance on
the rationals. -/
theorem ratFloor_eq_floor (q : Rat) : Rat.floor q = ⌊q⌋ := by
  rw [Rat.floor_def' q, Rat.floor_def]

/-- The exact-decimal truncation used by the embedded `int(float)` equals the
truncation toward zero of the denoted rational number. -/
theorem truncPow10_eq_ratTrunc (m e : Int) :
    truncPow10 m e = ratTrunc ((m : Rat) * (10 : Rat) ^ e) := by
  unfold truncPow10 ratTrunc
  by_cases he : 0 ≤ e
  · rw [if_pos he]
    have h10 : ((10 ^ e.toNat : Int) : Rat) = (10 : Rat) ^ e := by
      push_cast
      rw [← zpow_natCast (10 : Rat) e.toNat, Int.toNat_of_nonneg he]
    have hv : (m : Rat) * (10 : Rat) ^ e = ((m * 10 ^ e.toNat : Int) : Rat) := by
      rw [← h10]
      push_cast
      ring
    rw [hv]
    split
    · rw [ratFloor_eq_floor, Int.floor_intCast]
    · rw [ratFloor_eq_floor, ← Int.cast_neg, Int.floor_intCast]
      ring
  · rw [if_neg he]
    have hke : e = -(((-e).toNat : Nat) : Int) := by
      rw [Int.toNat_of_nonneg (by omega : (0:Int) ≤ -e)]
      ring
    have hv : (m : Rat) * (10 : Rat) ^ e = (m : Rat) / ((10 ^ (-e).toNat : Nat) : Rat) := by
      conv_lhs => rw [hke]
      rw [zpow_neg, zpow_natCast]
      push_cast
      ring
    simp only [hv]
    by_cases hm : 0 ≤ m
    · rw [if_pos hm,
        if_pos (by positivity : (0:Rat) ≤ (m : Rat) / ((10 ^ (-e).toNat : Nat) : Rat))]
      rw [ratFloor_eq_floor, Rat.floor_intCast_div_natCast m (10 ^ (-e).toNat)]
      rw [← Int.toNat_of_nonneg hm]
      exact_mod_cast rfl
    · have hmlt : m < 0 := by omega
      have hd : (0:Rat) < ((10 ^ (-e).toNat : Nat) : Rat) := by positivity
      rw [if_neg hm, if_neg (by
        push_neg
        exact div_neg_of_neg_of_pos (by exact_mod_cast hmlt) hd)]
      rw [← neg_div, ratFloor_eq_floor]
      have hcast : (-(m:Rat)) = ((-m : Int) : Rat) := by
        push_cast
        ring
      rw [hcast, Rat.floor_intCast_div_natCast (-m) (10 ^ (-e).toNat)]
      have hna : (m.natAbs : Int) = -m := by omega
      rw [← hna]
      norm_num

/-- C10: an element with a non-null name whose `affluence_score` is a JSON
number carrying a float (here `m * 10 ^ e`) stores the clamp of the
truncation toward zero of that number — not a rounding, not the default `5`,
and not a rejection. -/
theorem C10_truncates (fs : List (String × Json)) (nm : Json) (m e : Int)
    (hn : itemNameOpt (Json.obj fs) = some nm)
    (ha : itemAff (Json.obj fs) = Json.jfloat m e) :
    itemResult (Json.obj fs) = Except.ok (some (pyStr nm,
      { sub_region := pyStr (itemSub (Json.obj fs)),
        affluence_score := clampScore (ratTrunc ((m : Rat) * (10 : Rat) ^ e)) })) := by
  have hs : scoreOf (itemAff (Json.obj fs)) =
      Except.ok (clampScore (ratTrunc ((m : Rat) * (10 : Rat) ^ e))) := by
    rw [ha, ← truncPow10_eq_ratTrunc]
    simp only [scoreOf, pyInt]
  simp only [itemResult, hn, hs]

/-- Witness for C10 at a concrete element with score `7.9`, stored as `7`. -/
theorem C10_witness :
    itemResult (Json.obj [("original_name", Json.str "A"),
        ("affluence_score", Json.jfloat 79 (-1))]) =
      Except.ok (some ("A", { sub_region := "Unknown", affluence_score := 7 })) := by
  have h := C10_truncates [("original_name", Json.str "A"),
    ("affluence_score", Json.jfloat 79 (-1))] (Json.str "A") 79 (-1) rfl rfl
  rw [← truncPow10_eq_ratTrunc] at h
  rw [h]
  rfl

/-! Helper lemmas about which exceptions the loop can raise. -/

theorem scoreOf_error (a : Json) (e : PyErr) (h : scoreOf a = Except.error e) :
    e = PyErr.overflowError := by
  unfold scoreOf at h
  cases hp : pyInt a with
  | ok n => rw [hp] at h; exact Except.noConfusion h
  | error ce =>
    rw [hp] at h
    cases ce
    · exact Except.noConfusion h
    · exact Except.noConfusion h
    · simpa using h.symm

theorem itemResult_error (it : Json) (e : PyErr) (h : itemResult it = Except.error e) :
    e = PyErr.overflowError := by
  unfold itemResult at h
  cases it <;> try exact Except.noConfusion h
  case obj fs =>
    cases hn : itemNameOpt (Json.obj fs) with
    | none => rw [hn] at h; exact Except.noConfusion h
    | some nm =>
      rw [hn] at h
      cases hs : scoreOf (itemAff (Json.obj fs)) with
      | ok sc => rw [hs] at h; exact Except.noConfusion h
      | error e2 =>
        rw [hs] at h
        have he2 : e2 = e := by simpa using h
        exact he2 ▸ scoreOf_error _ e2 hs

theorem processItem_error (acc : List (String × Record)) (it : Json) (e : PyErr)
    (h : processItem acc it = Except.error e) : e = PyErr.overflowError := by
  unfold processItem at h
  cases hi : itemResult it with
  | ok o =>
    rw [hi] at h
    cases o with
    | none => exact Except.noConfusion h
    | some kv =>
      obtain ⟨k, v⟩ := kv
      exact Except.noConfusion h
  | error e2 =>
    rw [hi] at h
    have he2 : e2 = e := by simpa using h
    exact he2 ▸ itemResult_error it e2 hi

theorem foldlM_error (items : List Json) :
    ∀ acc e, List.foldlM processItem acc items = Except.error e →
    e = PyErr.overflowError := by
  induction items with
  | nil =>
    intro acc e h
    simp [List.foldlM_nil, pure, Except.pure] at h
  | cons it rest ih =>
    intro acc e h
    rw [List.foldlM_cons] at h
    cases hi : processItem acc it with
    | error e2 =>
      rw [hi] at h
      have he2 : e2 = e := by simpa [Bind.bind, Except.bind] using h
      exact he2 ▸ processItem_error acc it e2 hi
    | ok acc2 =>
      rw [hi] at h
      exact ih acc2 e h

/-- Reduction of the interpreter once the document is known to be an
object. -/
theorem parse_obj_step (cs : List Char) (fs : List (String × Json))
    (hj : jsonLoads (extractFenced (stripChars cs)) = some (Json.obj fs)) :
    parseMappingsChars cs =
      match selectMappings (objGet (Json.obj fs) "mappings") (objGet (Json.obj fs) "mapping") with
      | Json.arr items => List.foldlM processItem [] items
      | _ => Except.error PyErr.expectedMappingsArray := by
  unfold parseMappingsChars
  rw [hj]

/-- C2 counterexample: the empty JSON object parses as a document in which
both `mappings` and `mapping` are absent, yet the interpreter returns the
empty mapping instead of raising. -/
theorem C2_counterexample :
    jsonLoads (extractFenced (stripChars ("\x7b\x7d".toList))) = some (Json.obj []) ∧
    _parse_mappings_json "\x7b\x7d" = Except.ok [] :=
  ⟨rfl, rfl⟩

/-- C2 amended: on a document that is a JSON object, the interpreter raises
the `Expected mappings array` error exactly when the value chosen by the
truthiness-chained fallback (`mappings` if truthy, else `mapping` if truthy,
else the empty list) is not a list; in particular when both keys are absent
or falsy the chosen value is the default empty list and the call returns. -/
theorem C2_amended (cs : List Char) (fs : List (String × Json))
    (hj : jsonLoads (extractFenced (stripChars cs)) = some (Json.obj fs)) :
    (parseMappingsChars cs = Except.error PyErr.expectedMappingsArray ↔
      isArr (selectMappings (objGet (Json.obj fs) "mappings")
        (objGet (Json.obj fs) "mapping")) = false) := by
  rw [parse_obj_step cs fs hj]
  cases hsel : selectMappings (objGet (Json.obj fs) "mappings") (objGet (Json.obj fs) "mapping")
    <;> simp only [isArr]
  case arr items =>
    constructor
    · intro h
      exact absurd (foldlM_error items [] PyErr.expectedMappingsArray h) (by simp)
    · intro h
      exact absurd h (by simp)

/-- Witness for the amended C2 at a document whose `mappings` value is the
truthy non-list `3`: the interpreter raises the dedicated error. -/
theorem C2_witness :
    _parse_mappings_json "\x7b\x22mappings\x22: 3\x7d" =
      Except.error PyErr.expectedMappingsArray := by
  have h := C2_amended ("\x7b\x22mappings\x22: 3\x7d".toList) [("mappings", Json.jint 3)] rfl
  exact h.mpr rfl

/-- C6 counterexample: an element with `sub_region` present and `null` stores
the string `None`, not the default `Unknown` the claim asserts for invalid
values. -/
theorem C6_counterexample :
    _parse_mappings_json
      "\x7b\x22mappings\x22:[\x7b\x22original_name\x22:\x22A\x22,\x22sub_region\x22:null\x7d]\x7d" =
      Except.ok [("A", { sub_region := "None", affluence_score := 5 })] ∧
    "None" ≠ "Unknown" :=
  ⟨rfl, by decide⟩

/-- Value of `clampScore` at the default score. -/
theorem clampScore_five : clampScore 5 = 5 := by
  norm_num [clampScore]

/-- C6 amended: with a non-null name, `sub_region` stores the default
`Unknown` only when the key is absent; every present value — `null`
included — is stringified with `str()`, and `null` stores the literal
`None`.  The stored score is `5` whenever `affluence_score` is absent, or
its value is any one on which `int()` fails with `TypeError` or `ValueError`
(the whole non-coercible class: `null`, non-numeric strings such as `high`,
`NaN`, lists, dicts). -/
theorem C6_amended (fs : List (String × Json)) (nm : Json) (sc : Int)
    (hn : itemNameOpt (Json.obj fs) = some nm)
    (hs : scoreOf (itemAff (Json.obj fs)) = Except.ok sc) :
    (objGet (Json.obj fs) "sub_region" = none →
      itemResult (Json.obj fs) = Except.ok (some (pyStr nm,
        { sub_region := "Unknown", affluence_score := sc }))) ∧
    (∀ v, objGet (Json.obj fs) "sub_region" = some v →
      itemResult (Json.obj fs) = Except.ok (some (pyStr nm,
        { sub_region := pyStr v, affluence_score := sc }))) ∧
    pyStr Json.null = "None" ∧
    ((objGet (Json.obj fs) "affluence_score" = none ∨
      pyInt (itemAff (Json.obj fs)) = Except.error CoErr.tyErr ∨
      pyInt (itemAff (Json.obj fs)) = Except.error CoErr.valErr) → sc = 5) := by
  refine ⟨?_, ?_, rfl, ?_⟩
  · intro hsub
    have h1 : itemSub (Json.obj fs) = Json.str "Unknown" := by
      unfold itemSub
      rw [hsub]
      rfl
    have h2 : pyStr (itemSub (Json.obj fs)) = "Unknown" := by
      rw [h1]
      rfl
    simp only [itemResult, hn, hs, h2]
  · intro v hsub
    have h1 : itemSub (Json.obj fs) = v := by
      unfold itemSub
      rw [hsub]
      rfl
    have h2 : pyStr (itemSub (Json.obj fs)) = pyStr v := by
      rw [h1]
    simp only [itemResult, hn, hs, h2]
  · intro haff
    have hsc : (Except.ok (clampScore 5) : Except PyErr Int) = Except.ok sc := by
      rcases haff with h1 | h1 | h1
      · have ha : itemAff (Json.obj fs) = Json.jint 5 := by
          unfold itemAff
          rw [h1]
          rfl
        rw [← hs, ha]
        rfl
      · rw [← hs]
        unfold scoreOf
        rw [h1]
      · rw [← hs]
        unfold scoreOf
        rw [h1]
    have : clampScore 5 = sc := by injection hsc
    rw [← this]
    exact clampScore_five

/-- Witness for the amended C6 at two concrete elements: one with
`sub_region` absent and the non-coercible score `high` storing
`(Unknown, 5)`, and one with `sub_region` present as `null` and a list
score storing `(None, 5)`. -/
theorem C6_witness :
    itemResult (Json.obj [("original_name", Json.str "A"),
        ("affluence_score", Json.str "high")]) =
      Except.ok (some ("A", { sub_region := "Unknown", affluence_score := 5 })) ∧
    itemResult (Json.obj [("original_name", Json.str "A"), ("sub_region", Json.null),
        ("affluence_score", Json.arr [])]) =
      Except.ok (some ("A", { sub_region := "None", affluence_score := 5 })) := by
  constructor
  · exact (C6_amended [("original_name", Json.str "A"), ("affluence_score", Json.str "high")]
      (Json.str "A") 5 rfl rfl).1 rfl
  · exact (C6_amended [("original_name", Json.str "A"), ("sub_region", Json.null),
      ("affluence_score", Json.arr [])] (Json.str "A") 5 rfl rfl).2.1 Json.null rfl

/-- C7 (evaluation at the failing input): an element whose `affluence_score`
is the constant `Infinity` — which `json.loads` accepts by default — makes
the call raise `OverflowError` from `int()`, which the
`except (TypeError, ValueError)` clause does not catch, so the interpreter
raises instead of returning. -/
theorem C7_overflow_eval :
    _parse_mappings_json
      "\x7b\x22mappings\x22: [\x7b\x22original_name\x22: \x22A\x22, \x22affluence_score\x22: Infinity\x7d]\x7d" =
      Except.error PyErr.overflowError := rfl

/-- C3 counterexample: with a list whose earlier entry matches only the
family part and whose later entry contains the full preferred name, the code
returns the earlier family match, while the claim requires the first entry
containing the full preferred name whenever one exists. -/
theorem C3_counterexample :
    _pick_model ["llama3.1", "llama3.1:8b"] "llama3.1:8b" = "llama3.1" ∧
    strIn "llama3.1:8b" "llama3.1" = false ∧
    strIn "llama3.1:8b" "llama3.1:8b" = true :=
  ⟨rfl, rfl, rfl⟩

/-- C3 amended: the selection is a single left-to-right pass returning the
first entry that contains the preferred name or — when the preferred name
contains a colon — its family part, with no priority of full-name matches
over family matches across the list; if no entry matches, the first entry is
returned, and with an empty list the preferred name itself. -/
theorem C3_amended (names : List String) (preferred : String) :
    _pick_model names preferred = pickModelFirstMatch names preferred := by
  unfold _pick_model pickModelFirstMatch
  have h : ∀ l : List String, pickLoop preferred l = l.find? (fun n => pickCond preferred n) := by
    intro l
    induction l with
    | nil => rfl
    | cons n rest ih =>
      unfold pickLoop
      by_cases hc : pickCond preferred n
      · rw [if_pos hc, List.find?_cons_of_pos _ hc]
      · rw [if_neg hc, List.find?_cons_of_neg _ (by simpa using hc), ih]
  rw [h names]

/-- C9 counterexample: with the bucket and credential variables set but the
reports directory missing, the run stages the credential file and then
returns early with the file still on disk. -/
theorem C9_counterexample :
    ((uploadMain (UploadEnv.mk (some "bucket") (some "key") false [])
      (FsState.mk false)).1).credFileExists = true := rfl

/-- C9 amended: the staged credential file is removed only on the path that
reaches the upload loop; whenever both environment variables are truthy but
the reports directory is missing, `main` returns with the staged file still
existing.  (Exception paths of the unmodelled storage calls have no handler
either and would likewise leave the file.) -/
theorem C9_amended (env : UploadEnv) (fs : FsState) :
    ((uploadMain env fs).1).credFileExists =
      (if envTruthy env.gcsBucket && envTruthy env.credsJson then !env.reportsDirExists
       else fs.credFileExists) := by
  unfold uploadMain
  cases hb : envTruthy env.gcsBucket <;> cases hc : envTruthy env.credsJson <;>
    cases hr : env.reportsDirExists <;> simp [hb, hc, hr]

/-! Helper lemmas about the keys of the accumulated result dict. -/

theorem map_keep_keys (k k2 : String) (v : Record) :
    ∀ l : List (String × Record),
      (l.map (fun p => if p.1 == k then (k, v) else p)).any (fun p => p.1 == k2) =
        l.any (fun p => p.1 == k2) := by
  intro l
  induction l with
  | nil => rfl
  | cons p rest ih =>
    rw [List.map_cons, List.any_cons, List.any_cons, ih]
    by_cases hpk : p.1 == k
    · rw [if_pos hpk]
      have hpe : p.1 = k := by simpa using hpk
      rw [hpe]
    · rw [if_neg hpk]

theorem dictInsert_any_key (m : List (String × Record)) (k k2 : String) (v : Record) :
    (dictInsert m k v).any (fun p => p.1 == k2) =
      (m.any (fun p => p.1 == k2) || (k == k2)) := by
  unfold dictInsert
  split
  · rename_i hany
    rw [map_keep_keys]
    by_cases hk2 : k == k2
    · have hk2e : k = k2 := by simpa using hk2
      have hm : m.any (fun p => p.1 == k2) = true := by
        rcases List.any_eq_true.mp hany with ⟨p, hp, hpk⟩
        exact List.any_eq_true.mpr ⟨p, hp, by rw [← hk2e]; exact hpk⟩
      simp [hm, hk2]
    · simp [hk2]
  · rw [List.any_append]
    simp

theorem pyInt_ovf (a : Json) (h : pyInt a = Except.error CoErr.ovfErr) :
    ∃ b, a = Json.jinf b := by
  cases a <;> simp [pyInt] at h <;> try exact ⟨_, rfl⟩
  case str s =>
    cases hos : pyIntOfStr s <;> rw [hos] at h <;> simp at h

theorem itemResult_ok_of_not_inf (it : Json) (h : affIsInf it = false) :
    ∃ o, itemResult it = Except.ok o := by
  cases it <;> try exact ⟨none, rfl⟩
  case obj fs =>
    cases hn : itemNameOpt (Json.obj fs) with
    | none => exact ⟨none, by unfold itemResult; rw [hn]⟩
    | some nm =>
      cases hs : scoreOf (itemAff (Json.obj fs)) with
      | ok sc => exact ⟨_, by unfold itemResult; rw [hn, hs]⟩
      | error e =>
        exfalso
        unfold scoreOf at hs
        cases hp : pyInt (itemAff (Json.obj fs)) with
        | ok n => rw [hp] at hs; exact Except.noConfusion hs
        | error ce =>
          rw [hp] at hs
          cases ce
          · exact Except.noConfusion hs
          · exact Except.noConfusion hs
          · obtain ⟨b, hb⟩ := pyInt_ovf _ hp
            unfold affIsInf at h
            rw [hb] at h
            simp at h

theorem itemResult_ok_none_key (it : Json) (h : itemResult it = Except.ok none) :
    itemKey it = none := by
  unfold itemResult at h
  unfold itemKey
  cases it <;> try rfl
  case obj fs =>
    cases hn : itemNameOpt (Json.obj fs) with
    | none => rfl
    | some nm =>
      rw [hn] at h
      cases hs : scoreOf (itemAff (Json.obj fs)) with
      | ok sc =>
        rw [hs] at h
        simp at h
      | error e => rw [hs] at h; exact Except.noConfusion h

theorem itemResult_ok_some_key (it : Json) (k : String) (v : Record)
    (h : itemResult it = Except.ok (some (k, v))) : itemKey it = some k := by
  unfold itemResult at h
  unfold itemKey
  cases it <;> try exact Option.noConfusion (Except.ok.inj h)
  case obj fs =>
    cases hn : itemNameOpt (Json.obj fs) with
    | none => rw [hn] at h; simp at h
    | some nm =>
      rw [hn] at h
      cases hs : scoreOf (itemAff (Json.obj fs)) with
      | ok sc =>
        rw [hs] at h
        simp only [Except.ok.injEq, Option.some.injEq, Prod.mk.injEq] at h
        simp [h.1]
      | error e => rw [hs] at h; exact Except.noConfusion h

theorem foldlM_keys (items : List Json) :
    ∀ acc, (∀ it ∈ items, affIsInf it = false) →
    ∃ m, List.foldlM processItem acc items = Except.ok m ∧
      ∀ k2, m.any (fun p => p.1 == k2) =
        (acc.any (fun p => p.1 == k2) || items.any (fun it => itemKey it == some k2)) := by
  induction items with
  | nil =>
    intro acc _
    exact ⟨acc, rfl, by simp⟩
  | cons it rest ih =>
    intro acc hni
    have hit : affIsInf it = false := hni it (by simp)
    obtain ⟨o, ho⟩ := itemResult_ok_of_not_inf it hit
    cases o with
    | none =>
      have hp : processItem acc it = Except.ok acc := by
        unfold processItem
        rw [ho]
      obtain ⟨m, hm, hk⟩ := ih acc (fun x hx => hni x (by simp [hx]))
      refine ⟨m, ?_, ?_⟩
      · rw [List.foldlM_cons, hp]
        exact hm
      · intro k2
        rw [hk k2]
        have hkey : itemKey it = none := itemResult_ok_none_key it ho
        simp [List.any_cons, hkey]
    | some kv =>
      obtain ⟨k, v⟩ := kv
      have hp : processItem acc it = Except.ok (dictInsert acc k v) := by
        unfold processItem
        rw [ho]
      obtain ⟨m, hm, hk⟩ := ih (dictInsert acc k v) (fun x hx => hni x (by simp [hx]))
      refine ⟨m, ?_, ?_⟩
      · rw [List.foldlM_cons, hp]
        exact hm
      · intro k2
        rw [hk k2, dictInsert_any_key]
        have hkey : itemKey it = some k := itemResult_ok_some_key it k v ho
        rw [List.any_cons, hkey]
        have hbeq : ((some k == some k2) : Bool) = (k == k2) := rfl
        rw [hbeq, Bool.or_assoc]

/-- C8 counterexample: two object elements share a non-null `original_name`,
so the returned mapping has one entry while two elements qualify — the
last-write-wins overwrite means the mapping does not contain exactly one
entry per qualifying element. -/
theorem C8_counterexample :
    _parse_mappings_json
      "\x7b\x22mappings\x22:[\x7b\x22original_name\x22:\x22A\x22,\x22affluence_score\x22:1\x7d,\x7b\x22original_name\x22:\x22A\x22,\x22affluence_score\x22:2\x7d]\x7d" =
      Except.ok [("A", { sub_region := "Unknown", affluence_score := 2 })] ∧
    List.length [("A", Record.mk "Unknown" 2)] = 1 ∧
    List.countP (fun it => (itemKey it).isSome)
      [Json.obj [("original_name", Json.str "A"), ("affluence_score", Json.jint 1)],
       Json.obj [("original_name", Json.str "A"), ("affluence_score", Json.jint 2)]] = 2 ∧
    (1 : Nat) ≠ 2 :=
  ⟨rfl, rfl, rfl, by decide⟩

/-- C8 amended: for every valid JSON input whose document is an object on
which the fallback chain selects a `mappings` array, and in which no element
carries an infinite-float score (the one shape on which the loop raises, see
C7), the call succeeds, and the keys of the returned mapping are exactly the
stringified non-null `original_name` values of the object elements —
duplicates collapse into a single entry with the later element
overwriting. -/
theorem C8_amended (s : String) (fs : List (String × Json)) (items : List Json)
    (hj : jsonLoads (extractFenced (stripChars s.toList)) = some (Json.obj fs))
    (hsel : selectMappings (objGet (Json.obj fs) "mappings") (objGet (Json.obj fs) "mapping") =
      Json.arr items)
    (hni : ∀ it ∈ items, affIsInf it = false) :
    isOkE (_parse_mappings_json s) = true ∧
    ∀ k2, hasKey (_parse_mappings_json s) k2 =
      items.any (fun it => itemKey it == some k2) := by
  obtain ⟨m, hm, hk⟩ := foldlM_keys items [] hni
  have hp : _parse_mappings_json s = Except.ok m := by
    show parseMappingsChars s.toList = Except.ok m
    rw [parse_obj_step s.toList fs hj, hsel]
    exact hm
  constructor
  · rw [hp]
    rfl
  · intro k2
    rw [hp]
    show m.any (fun p => p.1 == k2) = _
    rw [hk k2]
    simp

/-- Witness for the amended C8 at the duplicate-name input: the call returns
and the key `A` is present. -/
theorem C8_witness :
    isOkE (_parse_mappings_json
      "\x7b\x22mappings\x22:[\x7b\x22original_name\x22:\x22A\x22,\x22affluence_score\x22:1\x7d,\x7b\x22original_name\x22:\x22A\x22,\x22affluence_score\x22:2\x7d]\x7d") = true ∧
    hasKey (_parse_mappings_json
      "\x7b\x22mappings\x22:[\x7b\x22original_name\x22:\x22A\x22,\x22affluence_score\x22:1\x7d,\x7b\x22original_name\x22:\x22A\x22,\x22affluence_score\x22:2\x7d]\x7d") "A" = true := by
  have h := C8_amended
    "\x7b\x22mappings\x22:[\x7b\x22original_name\x22:\x22A\x22,\x22affluence_score\x22:1\x7d,\x7b\x22original_name\x22:\x22A\x22,\x22affluence_score\x22:2\x7d]\x7d"
    [("mappings", Json.arr
      [Json.obj [("original_name", Json.str "A"), ("affluence_score", Json.jint 1)],
       Json.obj [("original_name", Json.str "A"), ("affluence_score", Json.jint 2)]])]
    [Json.obj [("original_name", Json.str "A"), ("affluence_score", Json.jint 1)],
     Json.obj [("original_name", Json.str "A"), ("affluence_score", Json.jint 2)]]
    rfl rfl (by intro it hit; fin_cases hit <;> rfl)
  refine ⟨h.1, ?_⟩
  rw [h.2 "A"]
  rfl

/-! Helper lemmas about the fence regex and stripping, for C4. -/

theorem dropWhile_all_append (p : Char → Bool) (l1 l2 : List Char)
    (h : ∀ c ∈ l1, p c = true) : (l1 ++ l2).dropWhile p = l2.dropWhile p := by
  induction l1 with
  | nil => rfl
  | cons c cs ih =>
    simp only [List.cons_append, List.dropWhile_cons, h c (by simp)]
    exact ih (fun x hx => h x (by simp [hx]))

theorem dropWhile_cons_neg (p : Char → Bool) (c : Char) (l : List Char) (h : p c = false) :
    (c :: l).dropWhile p = c :: l := by
  simp [List.dropWhile_cons, h]

theorem stripChars_sandwich (ws1 ws4 mid : List Char) (c0 cl : Char) (rest : List Char)
    (hmid : mid = c0 :: (rest ++ [cl]))
    (h1 : ∀ c ∈ ws1, isPySpace c = true) (h4 : ∀ c ∈ ws4, isPySpace c = true)
    (hc0 : isPySpace c0 = false) (hcl : isPySpace cl = false) :
    stripChars (ws1 ++ mid ++ ws4) = mid := by
  subst hmid
  unfold stripChars
  rw [List.append_assoc, dropWhile_all_append _ ws1 _ h1, List.cons_append,
    dropWhile_cons_neg _ _ _ hc0]
  have hrev : (c0 :: ((rest ++ [cl]) ++ ws4)).reverse =
      ws4.reverse ++ (cl :: (rest.reverse ++ [c0])) := by
    simp
  rw [hrev, dropWhile_all_append _ ws4.reverse _ (by
    intro c hc
    exact h4 c (List.mem_reverse.mp hc)),
    dropWhile_cons_neg _ _ _ hcl]
  simp

theorem findCloseGo_no_close (l : List Char) :
    ∀ i acc, (∀ c ∈ l, c ≠ '}') → findCloseGo l i acc = acc := by
  induction l with
  | nil => intro i acc _; rfl
  | cons c rest ih =>
    intro i acc h
    unfold findCloseGo
    have hc : c ≠ '}' := h c (by simp)
    rw [show (decide (c = '}') && fenceAfter rest) = false by simp [hc]]
    exact ih (i + 1) acc (fun x hx => h x (by simp [hx]))

theorem fenceAfter_ws_ticks (ws : List Char) (hws : ∀ c ∈ ws, isPySpace c = true) :
    fenceAfter (ws ++ ticks3) = true := by
  unfold fenceAfter
  rw [dropWhile_all_append _ ws _ hws]
  rw [show ticks3.dropWhile isPySpace = ticks3 from by
    apply dropWhile_cons_neg
    decide]
  rfl

theorem findCloseGo_last (front ws : List Char) (hws : ∀ c ∈ ws, isPySpace c = true) :
    ∀ i acc, findCloseGo (front ++ '}' :: (ws ++ ticks3)) i acc = some (i + front.length) := by
  induction front with
  | nil =>
    intro i acc
    rw [List.nil_append]
    unfold findCloseGo
    rw [show (decide ('}' = '}') && fenceAfter (ws ++ ticks3)) = true by
      simp [fenceAfter_ws_ticks ws hws]]
    rw [if_pos rfl]
    rw [findCloseGo_no_close (ws ++ ticks3) (i + 1) (some i) (by
      intro c hc
      rcases List.mem_append.mp hc with hcw | hct
      · intro he
        have := hws c hcw
        rw [he] at this
        exact absurd this (by decide)
      · intro he
        rw [he] at hct
        revert hct
        decide)]
    simp
  | cons c front' ih =>
    intro i acc
    rw [List.cons_append]
    unfold findCloseGo
    rw [ih (i + 1) _]
    congr 1
    simp only [List.length_cons]
    omega

theorem tryFenceAt_no_btick (cs : List Char) (h : ∀ c ∈ cs, c ≠ btick) :
    tryFenceAt cs = none := by
  cases cs with
  | nil => rfl
  | cons c1 rest1 =>
    cases rest1 with
    | nil => rfl
    | cons c2 rest2 =>
      cases rest2 with
      | nil => rfl
      | cons c3 rest3 =>
        have h1 : c1 ≠ btick := h c1 (by simp)
        simp only [tryFenceAt]
        rw [if_neg (by simp [h1])]

theorem searchFence_no_btick (l : List Char) (h : ∀ c ∈ l, c ≠ btick) :
    searchFence l = none := by
  induction l with
  | nil => rfl
  | cons c cs ih =>
    unfold searchFence
    rw [tryFenceAt_no_btick _ h]
    exact ih (fun x hx => h x (by simp [hx]))

theorem openBrace_step (tail bodyMid ws3 : List Char)
    (h3 : ∀ c ∈ ws3, isPySpace c = true)
    (htail : tail = '{' :: (bodyMid ++ ('}' :: (ws3 ++ ticks3)))) :
    (match tail.dropWhile isPySpace with
      | '{' :: r =>
        match findLastClose r with
        | some k => some ('{' :: r.take (k + 1))
        | none => none
      | _ => none) = some ('{' :: (bodyMid ++ ['}'])) := by
  subst htail
  rw [dropWhile_cons_neg _ '{' _ (by decide)]
  have hfind : findLastClose (bodyMid ++ ('}' :: (ws3 ++ ticks3))) = some bodyMid.length := by
    unfold findLastClose
    rw [findCloseGo_last bodyMid ws3 h3 0 none]
    simp
  show (match findLastClose (bodyMid ++ ('}' :: (ws3 ++ ticks3))) with
    | some k => some ('{' :: (bodyMid ++ ('}' :: (ws3 ++ ticks3))).take (k + 1))
    | none => none) = some ('{' :: (bodyMid ++ ['}']))
  rw [hfind]
  have htake : (bodyMid ++ ('}' :: (ws3 ++ ticks3))).take (bodyMid.length + 1) =
      bodyMid ++ ['}'] := by
    rw [show bodyMid ++ ('}' :: (ws3 ++ ticks3)) = (bodyMid ++ ['}']) ++ (ws3 ++ ticks3) from
      by simp]
    rw [show bodyMid.length + 1 = (bodyMid ++ ['}']).length from by simp]
    exact List.take_left _ _
  show some ('{' :: (bodyMid ++ ('}' :: (ws3 ++ ticks3))).take (bodyMid.length + 1)) =
    some ('{' :: (bodyMid ++ ['}']))
  rw [htake]

theorem tryFenceAt_fence (tag ws2 ws3 bodyMid : List Char)
    (htag : tag = [] ∨ tag = jsonTag)
    (h2 : ∀ c ∈ ws2, isPySpace c = true) (h3 : ∀ c ∈ ws3, isPySpace c = true) :
    tryFenceAt (btick :: btick :: btick ::
        (tag ++ (ws2 ++ ('{' :: (bodyMid ++ ('}' :: (ws3 ++ ticks3))))))) =
      some ('{' :: (bodyMid ++ ['}'])) := by
  simp only [tryFenceAt]
  rw [if_pos (by simp)]
  rcases htag with htag | htag
  · subst htag
    rw [List.nil_append]
    have hne : ¬((ws2 ++ ('{' :: (bodyMid ++ ('}' :: (ws3 ++ ticks3))))).take 4 = jsonTag) := by
      cases hw : ws2 with
      | nil => simp [jsonTag]
      | cons w ws' =>
        have hsp : isPySpace w = true := h2 w (by simp [hw])
        have hwj : w ≠ 'j' := by
          intro he
          rw [he] at hsp
          exact absurd hsp (by decide)
        simp [jsonTag, hwj]
    rw [if_neg hne]
    rw [dropWhile_all_append _ ws2 _ h2]
    exact openBrace_step _ bodyMid ws3 h3 rfl
  · subst htag
    rw [show ((jsonTag ++ (ws2 ++ ('{' :: (bodyMid ++ ('}' :: (ws3 ++ ticks3)))))).take 4 =
        jsonTag) from by
      rw [show (4:Nat) = jsonTag.length from rfl]
      exact List.take_left _ _]
    rw [if_pos rfl]
    rw [show ((jsonTag ++ (ws2 ++ ('{' :: (bodyMid ++ ('}' :: (ws3 ++ ticks3)))))).drop 4 =
        ws2 ++ ('{' :: (bodyMid ++ ('}' :: (ws3 ++ ticks3))))) from by
      rw [show (4:Nat) = jsonTag.length from rfl]
      exact List.drop_left _ _]
    rw [dropWhile_all_append _ ws2 _ h2]
    exact openBrace_step _ bodyMid ws3 h3 rfl

theorem extractFenced_bare (bodyMid : List Char) (hnb : ∀ c ∈ bodyMid, c ≠ btick) :
    extractFenced (stripChars ('{' :: (bodyMid ++ ['}']))) = '{' :: (bodyMid ++ ['}']) := by
  have hstrip : stripChars ('{' :: (bodyMid ++ ['}'])) = '{' :: (bodyMid ++ ['}']) := by
    have := stripChars_sandwich [] [] ('{' :: (bodyMid ++ ['}'])) '{' '}' bodyMid rfl
      (by simp) (by simp) (by decide) (by decide)
    simpa using this
  rw [hstrip]
  unfold extractFenced
  rw [searchFence_no_btick _ (by
    intro c hc
    rcases List.mem_cons.mp hc with hc1 | hc2
    · rw [hc1]; decide
    · rcases List.mem_append.mp hc2 with hc3 | hc4
      · exact hnb c hc3
      · intro he
        rw [he] at hc4
        revert hc4
        decide)]
  rfl

theorem extractFenced_wrap (bodyMid ws1 ws2 ws3 ws4 tag : List Char)
    (htag : tag = [] ∨ tag = jsonTag)
    (h1 : ∀ c ∈ ws1, isPySpace c = true) (h2 : ∀ c ∈ ws2, isPySpace c = true)
    (h3 : ∀ c ∈ ws3, isPySpace c = true) (h4 : ∀ c ∈ ws4, isPySpace c = true) :
    extractFenced (stripChars (ws1 ++ (btick :: btick :: btick ::
        (tag ++ (ws2 ++ ('{' :: (bodyMid ++ ('}' :: (ws3 ++ ticks3))))))) ++ ws4)) =
      '{' :: (bodyMid ++ ['}']) := by
  have hstrip : stripChars (ws1 ++ (btick :: btick :: btick ::
      (tag ++ (ws2 ++ ('{' :: (bodyMid ++ ('}' :: (ws3 ++ ticks3))))))) ++ ws4) =
      btick :: btick :: btick ::
        (tag ++ (ws2 ++ ('{' :: (bodyMid ++ ('}' :: (ws3 ++ ticks3)))))) := by
    apply stripChars_sandwich ws1 ws4 _ btick btick
      (btick :: btick :: (tag ++ (ws2 ++ ('{' :: (bodyMid ++ ('}' :: (ws3 ++ [btick, btick])))))))
      (by simp [ticks3]) h1 h4 (by decide) (by decide)
  rw [hstrip]
  unfold extractFenced
  show (match tryFenceAt (btick :: btick :: btick ::
      (tag ++ (ws2 ++ ('{' :: (bodyMid ++ ('}' :: (ws3 ++ ticks3))))))) with
    | some g => some g
    | none => searchFence (btick :: btick ::
        (tag ++ (ws2 ++ ('{' :: (bodyMid ++ ('}' :: (ws3 ++ ticks3)))))))).getD _ =
    '{' :: (bodyMid ++ ['}'])
  rw [tryFenceAt_fence tag ws2 ws3 bodyMid htag h2 h3]
  rfl

/-- C4 amended: for every bare text that (after trimming) is an opening
brace, a backtick-free middle, and a closing brace — in particular every
valid JSON object text containing no backtick — wrapping it in a fenced
block (three backticks with an optional `json` tag before it, three
backticks after it, with optional whitespace around and inside the fence)
yields exactly the same interpreter outcome as the bare text.  (With
backticks inside the object the regex can match an inner span of the bare
text and the outcomes differ, see the counterexample.) -/
theorem C4_amended (bodyMid ws1 ws2 ws3 ws4 tag : List Char)
    (htag : tag = [] ∨ tag = jsonTag)
    (h1 : ∀ c ∈ ws1, isPySpace c = true) (h2 : ∀ c ∈ ws2, isPySpace c = true)
    (h3 : ∀ c ∈ ws3, isPySpace c = true) (h4 : ∀ c ∈ ws4, isPySpace c = true)
    (hnb : ∀ c ∈ bodyMid, c ≠ btick) :
    parseMappingsChars (ws1 ++ (btick :: btick :: btick ::
        (tag ++ (ws2 ++ ('{' :: (bodyMid ++ ('}' :: (ws3 ++ ticks3))))))) ++ ws4) =
      parseMappingsChars ('{' :: (bodyMid ++ ['}'])) := by
  unfold parseMappingsChars
  rw [extractFenced_wrap bodyMid ws1 ws2 ws3 ws4 tag htag h1 h2 h3 h4,
    extractFenced_bare bodyMid hnb]

/-- C4 counterexample: a valid bare JSON object whose string value contains
a fenced brace span.  On the bare text the regex matches the inner span and
extracts the empty object, so the interpreter returns the empty mapping; on
the wrapped text the greedy match captures the whole object and the
interpreter returns the `A` entry.  The two outcomes differ, so wrapping is
not always outcome-preserving. -/
theorem C4_counterexample :
    jsonLoads ("\x7b\x22x\x22: \x22``` \x7b\x7d ```\x22, \x22mappings\x22: [\x7b\x22original_name\x22: \x22A\x22\x7d]\x7d".toList) =
      some (Json.obj [("x", Json.str "``` \x7b\x7d ```"),
        ("mappings", Json.arr [Json.obj [("original_name", Json.str "A")]])]) ∧
    _parse_mappings_json
      "\x7b\x22x\x22: \x22``` \x7b\x7d ```\x22, \x22mappings\x22: [\x7b\x22original_name\x22: \x22A\x22\x7d]\x7d" =
      Except.ok [] ∧
    _parse_mappings_json
      ("```json\n" ++ "\x7b\x22x\x22: \x22``` \x7b\x7d ```\x22, \x22mappings\x22: [\x7b\x22original_name\x22: \x22A\x22\x7d]\x7d" ++ "\n```") =
      Except.ok [("A", { sub_region := "Unknown", affluence_score := 5 })] ∧
    (Except.ok ([] : List (String × Record)) : Except PyErr (List (String × Record))) ≠
      Except.ok [("A", Record.mk "Unknown" 5)] :=
  ⟨rfl, rfl, rfl, fun h => List.noConfusion (Except.ok.inj h)⟩

/-- Witness for the amended C4: a concrete backtick-free object wrapped in a
`json`-tagged fence with newlines parses identically to the bare object. -/
theorem C4_witness :
    parseMappingsChars ([] ++ (btick :: btick :: btick ::
        (jsonTag ++ ((['\n'] : List Char) ++ ('{' :: ("\x22mappings\x22:[]".toList ++
          ('}' :: ((['\n'] : List Char) ++ ticks3))))))) ++ []) =
      parseMappingsChars ('{' :: ("\x22mappings\x22:[]".toList ++ ['}'])) :=
  C4_amended "\x22mappings\x22:[]".toList [] ['\n'] ['\n'] [] jsonTag (Or.inr rfl)
    (by simp) (by decide) (by decide) (by simp) (by decide)
